import Mathlib

/-!
# Verification of CTULib against its specification

Shallow embedding of the CTULib utility library (owned string, optional
wrapper, numeric parsing, OS query helpers) and proofs checking the
specification's claims against the code.

Strings and raw buffers are modelled as `List Nat` of byte values; machine
integers are `Nat` with explicit `% 2^32` where C++ unsigned overflow
matters.
-/

namespace Cthulhu

/-! ## Models of `src/Cthulhu/Meta/System.cpp` -/

/-- Model of POSIX `system("which Name > /dev/null 2>&1")` as seen by
`FunctionExists` (System.cpp line 52): `system` returns the shell's wait
status, which is `0` when `which` found the command on the search path and
a nonzero status (`256` = exit code 1 shifted) when it did not. -/
def systemWhich (existsOnPath : Bool) : Nat :=
  if existsOnPath then 0 else 256

/-- Model of `FunctionExists` (System.cpp lines 49-53): the C++ function
returns `system(...)` implicitly converted to `bool`, i.e. `true` exactly
when the wait status is nonzero. -/
def FunctionExists (existsOnPath : Bool) : Bool :=
  systemWhich existsOnPath != 0

/-- Model of `TotalRam` (System.cpp lines 34-47, non-Windows branch): the
`long` values returned by `sysconf` for `_SC_PHYS_PAGES` and
`_SC_PAGE_SIZE` are stored into `U32` locals (truncation mod 2^32) and
multiplied as `U32` (wrapping mod 2^32) before being widened to the `U64`
return type. -/
def TotalRam (Pages PageSize : Nat) : Nat :=
  ((Pages % 2 ^ 32) * (PageSize % 2 ^ 32)) % 2 ^ 32

/-- Model of the `String(const char*)` constructor used throughout
System.cpp: the bytes of a sentinel-terminated buffer up to (excluding)
the first `0` byte are duplicated into the owned string. -/
def cstring (bytes : List Nat) : List Nat :=
  bytes.takeWhile (fun c => c != 0)

/-- Model of the POSIX `getcwd(buf, size)` call: `cwd` is the current
working directory's path as reported by the operating system (`none` when
the directory is unreadable); the call succeeds and writes the path
exactly when the path plus its NUL terminator fits in `size` bytes, and
returns `NULL` (modelled `none`) otherwise. -/
def getcwdModel (cwd : Option (List Nat)) (size : Nat) : Option (List Nat) :=
  match cwd with
  | none => none
  | some p => if p.length + 1 ≤ size then some p else none

/-- Model of `CurrentDirectory` (System.cpp lines 77-91): calls
`getcwd(Path, 1024)` on a 1024-byte heap buffer; on success wraps
`String(Path)` in `Some`, on `NULL` returns `None<String>()`. -/
def CurrentDirectory (cwd : Option (List Nat)) : Option (List Nat) :=
  match getcwdModel cwd 1024 with
  | some p => some (cstring p)
  | none => none

/-- Model of one `fgets(C, 64, Temp)` call (System.cpp line 67) on a
pending stream of stdout bytes: reads up to `n` bytes (the real call
passes `n = 63`, one less than the buffer size), stopping early after a
newline (byte 10), and returns the bytes read alongside the remaining
stream. `fgets` then NUL-terminates the buffer. -/
def fgetsTake : Nat → List Nat → List Nat × List Nat
  | _, [] => ([], [])
  | 0, s => ([], s)
  | n + 1, c :: rest =>
    if c = 10 then ([c], rest)
    else
      let p := fgetsTake n rest
      (c :: p.1, p.2)

/-- The sequence of chunks the `while(fgets(...))` loop of `Exec` reads
from a stdout stream, driven by a fuel argument: each iteration reads at
most 63 bytes and the loop ends when the stream is exhausted (`fgets`
returns `NULL`). -/
def execChunksFuel : Nat → List Nat → List (List Nat)
  | 0, _ => []
  | _, [] => []
  | fuel + 1, c :: rest =>
    (fgetsTake 63 (c :: rest)).1 ::
      execChunksFuel fuel (fgetsTake 63 (c :: rest)).2

/-- The chunks `Exec`'s read loop produces from a stdout stream; a fuel of
the stream's length suffices because every iteration on a nonempty stream
consumes at least one byte. -/
def execChunks (stdout : List Nat) : List (List Nat) :=
  execChunksFuel stdout.length stdout

/-- Model of `Exec` (System.cpp lines 60-75): each chunk read by `fgets`
is appended to the result with `Ret += C`, which goes through the
`String(const char*)` conversion and therefore keeps only the bytes before
the first NUL of the chunk. -/
def Exec (stdout : List Nat) : List Nat :=
  ((execChunks stdout).map cstring).flatten

/-! ## Model of `src/Source/Core/Collections/Optional.h` -/

/-- Model of the C++ `Optional<T>` class (Optional.h lines 47-143): a
stored `Content` of type `T` and an `IsValid` flag. -/
structure Optional (T : Type) where
  Content : T
  IsValid : Bool

/-- The value constructor `Optional(T InContent)` (Optional.h lines
69-72): stores the content and sets `IsValid` to `true`. -/
def Optional.ofValue {T : Type} (InContent : T) : Optional T :=
  ⟨InContent, true⟩

/-- The default constructor `Optional()` (Optional.h lines 77-79): leaves
`Content` default-initialized and sets `IsValid` to `false`. -/
def Optional.empty {T : Type} [Inhabited T] : Optional T :=
  ⟨default, false⟩

/-- `Optional<T>::Or` (Optional.h line 101): the content when valid,
otherwise the supplied default. -/
def Optional.Or {T : Type} (o : Optional T) (Other : T) : T :=
  if o.IsValid then o.Content else Other

/-- `Optional<T>::operator bool()` (Optional.h line 123). -/
def Optional.toBool {T : Type} (o : Optional T) : Bool :=
  o.IsValid

/-- `Optional<T>::Valid()` (Optional.h line 142). -/
def Optional.Valid {T : Type} (o : Optional T) : Bool :=
  o.IsValid

/-- `NullOpt<T>()` (Optional.h lines 161-162): returns `Optional<T>()`. -/
def NullOpt (T : Type) [Inhabited T] : Optional T :=
  Optional.empty

/-! ## Models of the numeric lexer/formatter (`Utils` namespace of
`src/Cthulhu/Core/Collections/CthulhuString.h`)

The header declares `ParseInt`, `ParseBits`, `ParseHex`, `ParseFloat`,
`ParseBool` and `ToString`, but their implementation file
(CthulhuString.cpp) is not under src/, so these are modelled from the
specification's grammar (spec section 4.6). -/

namespace Utils

/-- Model of `Utils::IsNum` as used by the lexer: an ASCII decimal digit
byte. -/
def isDigit (c : Nat) : Bool :=
  decide (48 ≤ c ∧ c ≤ 57)

/-- Modelled from the spec: the digit-run scanner shared by the integer
grammar — consumes the remaining bytes, which must all be decimal digits,
accumulating the value left-to-right; any byte outside the digit set
aborts the parse with an absent result. (The `ParseInt` body in
CthulhuString.cpp is missing from src/.) -/
def parseDigitsAux : List Nat → Nat → Option Nat
  | [], acc => some acc
  | c :: rest, acc =>
    if isDigit c then parseDigitsAux rest (acc * 10 + (c - 48)) else none

/-- Modelled from the spec: `Utils::ParseInt` (CthulhuString.h line 195,
implementation missing from src/) — decimal digits with an optional
leading sign, absent on empty input or on any byte outside the grammar at
any position. -/
def ParseInt (cs : List Nat) : Option Int :=
  match cs with
  | [] => none
  | c :: rest =>
    if c = 45 then
      if rest = [] then none
      else (parseDigitsAux rest 0).map (fun v => -(v : Int))
    else if c = 43 then
      if rest = [] then none
      else (parseDigitsAux rest 0).map (fun v => (v : Int))
    else (parseDigitsAux (c :: rest) 0).map (fun v => (v : Int))

/-- Modelled from the spec: the binary-digit scanner of `ParseBits` —
every remaining byte must be `'0'` or `'1'`. -/
def parseBitsAux : List Nat → Nat → Option Nat
  | [], acc => some acc
  | c :: rest, acc =>
    if c = 48 ∨ c = 49 then parseBitsAux rest (acc * 2 + (c - 48)) else none

/-- Modelled from the spec: `Utils::ParseBits` (CthulhuString.h line 196,
implementation missing from src/) — a nonempty run of `'0'`/`'1'` bytes,
absent on empty input or any byte outside the grammar. -/
def ParseBits (cs : List Nat) : Option Int :=
  if cs = [] then none else (parseBitsAux cs 0).map (fun v => (v : Int))

/-- Model of a hexadecimal digit byte: `0-9`, `a-f` or `A-F`. -/
def isHexDigit (c : Nat) : Bool :=
  decide ((48 ≤ c ∧ c ≤ 57) ∨ (97 ≤ c ∧ c ≤ 102) ∨ (65 ≤ c ∧ c ≤ 70))

/-- Numeric value of a hexadecimal digit byte. -/
def hexVal (c : Nat) : Nat :=
  if c ≤ 57 then c - 48 else if c ≤ 70 then c - 55 else c - 87

/-- Modelled from the spec: the hex-digit scanner of `ParseHex` — every
remaining byte must belong to the hexadecimal digit set. -/
def parseHexAux : List Nat → Nat → Option Nat
  | [], acc => some acc
  | c :: rest, acc =>
    if isHexDigit c then parseHexAux rest (acc * 16 + hexVal c) else none

/-- Modelled from the spec: `Utils::ParseHex` (CthulhuString.h line 197,
implementation missing from src/) — a nonempty run of hexadecimal digit
bytes, absent on empty input or any byte outside the grammar. -/
def ParseHex (cs : List Nat) : Option Int :=
  if cs = [] then none else (parseHexAux cs 0).map (fun v => (v : Int))

/-- Modelled from the spec: the fractional-digit scanner of `ParseFloat` —
every remaining byte must be a decimal digit, contributing with
successively smaller decimal weight. -/
def parseFracAux : List Nat → Option ℚ
  | [] => some 0
  | c :: rest =>
    if isDigit c then
      (parseFracAux rest).map (fun q => (((c - 48 : Nat) : ℚ) + q) / 10)
    else none

/-- Modelled from the spec: the unsigned body of the decimal-point float
grammar — integer digits, optionally followed by a decimal point and a
nonempty run of fraction digits. -/
def parseFloatAux : List Nat → Nat → Option ℚ
  | [], acc => some (acc : ℚ)
  | c :: rest, acc =>
    if isDigit c then parseFloatAux rest (acc * 10 + (c - 48))
    else if c = 46 then
      if rest = [] then none
      else (parseFracAux rest).map (fun q => (acc : ℚ) + q)
    else none

/-- Modelled from the spec: `Utils::ParseFloat` (CthulhuString.h line 198,
implementation missing from src/) — decimal-point float grammar with an
optional leading sign; the exact value is modelled as a rational. Absent
on empty input or any byte outside the grammar. -/
def ParseFloat (cs : List Nat) : Option ℚ :=
  match cs with
  | [] => none
  | c :: rest =>
    if c = 45 then
      if rest = [] then none else (parseFloatAux rest 0).map (fun q => -q)
    else if c = 43 then
      if rest = [] then none else parseFloatAux rest 0
    else parseFloatAux (c :: rest) 0

/-- Modelled from the spec: `Utils::ParseBool` (CthulhuString.h line 199,
implementation missing from src/) — exactly the literal tokens `"true"`
and `"false"`, absent on anything else. -/
def ParseBool (cs : List Nat) : Option Bool :=
  if cs = [116, 114, 117, 101] then some true
  else if cs = [102, 97, 108, 115, 101] then some false
  else none

/-- Modelled from the spec: the digit-extraction loop of `ToString` —
repeatedly divides by ten, emitting ASCII digit bytes least-significant
first; the fuel bounds the iteration count and `n` itself always
suffices. -/
def natToDecAux : Nat → Nat → List Nat
  | 0, _ => []
  | _, 0 => []
  | fuel + 1, n + 1 => ((n + 1) % 10 + 48) :: natToDecAux fuel ((n + 1) / 10)

/-- Modelled from the spec: the decimal rendering of a nonnegative value
used by `ToString` — most-significant digit first, each digit offset to
its ASCII byte. -/
def natToDec (n : Nat) : List Nat :=
  (natToDecAux n n).reverse

/-- Modelled from the spec: `Utils::ToString(I64)` (CthulhuString.h line
201, implementation missing from src/) — `"0"` for zero, otherwise the
decimal digits of the magnitude preceded by `'-'` for negative values. -/
def ToString (n : Int) : List Nat :=
  if n < 0 then 45 :: natToDec n.natAbs
  else if n = 0 then [48]
  else natToDec n.natAbs

end Utils

/-! ## Model of the owned String type

The repository's `String` (CthulhuString.h lines 38-118) is declared in
the header but its implementation file (CthulhuString.cpp) is not under
src/; the observable value — the owned sentinel-terminated buffer's
content bytes — is modelled from the specification. -/

/-- Modelled from the spec: the owned dynamic `String` (CthulhuString.h
lines 38-118, implementation missing from src/), observed through its
content bytes; per Invariant 1 the owned allocation is these bytes
followed by the `0` sentinel. -/
structure String where
  content : List Nat

/-- Modelled from the spec: `String::operator+` / `Append`
(CthulhuString.h lines 57-71, implementation missing from src/) — a new
buffer sized to the combined length plus one sentinel byte receives the
left content, then the right content, then the sentinel; observably the
concatenation of the two contents. -/
def String.append (a b : String) : String :=
  ⟨a.content ++ b.content⟩

/-- Model of `String::Len` (CthulhuString.h line 47): the count of
content bytes, excluding the sentinel. -/
def String.Len (s : String) : Nat :=
  s.content.length

/-- The owned allocation per Invariant 1: the content bytes followed by
the `0` sentinel. -/
def String.buffer (s : String) : List Nat :=
  s.content ++ [0]

/-! ## Lemmas about the `Exec` read loop -/

/-- A single `fgets` read splits the stream: the bytes read followed by
the remaining stream reconstitute the original stream. -/
theorem fgetsTake_append (n : Nat) (s : List Nat) :
    (fgetsTake n s).1 ++ (fgetsTake n s).2 = s := by
  induction s generalizing n with
  | nil => cases n <;> rfl
  | cons c rest ih =>
    cases n with
    | zero => rfl
    | succ m =>
      unfold fgetsTake
      by_cases hc : c = 10
      · rw [if_pos hc]
        rfl
      · rw [if_neg hc]
        simpa using ih m

/-- On a nonempty stream, `fgets` with a positive byte budget reads at
least one byte. -/
theorem fgetsTake_pos (n : Nat) (c : Nat) (rest : List Nat) (hn : n ≠ 0) :
    (fgetsTake n (c :: rest)).2.length < (c :: rest).length := by
  cases n with
  | zero => exact absurd rfl hn
  | succ m =>
    unfold fgetsTake
    by_cases hc : c = 10
    · rw [if_pos hc]; simp
    · rw [if_neg hc]
      have h2 := fgetsTake_append m rest
      have hle : (fgetsTake m rest).2.length ≤ rest.length := by
        calc (fgetsTake m rest).2.length
            ≤ (fgetsTake m rest).1.length + (fgetsTake m rest).2.length := by
              omega
          _ = rest.length := by rw [← List.length_append, h2]
      simpa using Nat.lt_succ_of_le hle

/-- With enough fuel, flattening the chunks read by the loop recovers the
whole stdout stream. -/
theorem execChunksFuel_flatten (fuel : Nat) (s : List Nat)
    (h : s.length ≤ fuel) : (execChunksFuel fuel s).flatten = s := by
  induction fuel generalizing s with
  | zero =>
    have : s = [] := List.length_eq_zero.mp (Nat.le_zero.mp h)
    simp [this, execChunksFuel]
  | succ m ih =>
    cases s with
    | nil => rfl
    | cons c rest =>
      show ((fgetsTake 63 (c :: rest)).1 ::
        execChunksFuel m (fgetsTake 63 (c :: rest)).2).flatten = c :: rest
      rw [List.flatten_cons]
      have hlt := fgetsTake_pos 63 c rest (by decide)
      simp only [List.length_cons] at hlt h
      rw [ih _ (by omega)]
      exact fgetsTake_append 63 (c :: rest)

/-- Every byte of every chunk read by the loop is a byte of the stream. -/
theorem execChunksFuel_mem (b : Nat) (l : List Nat) :
    ∀ (fuel : Nat) (s : List Nat),
      l ∈ execChunksFuel fuel s → b ∈ l → b ∈ s := by
  intro fuel
  induction fuel with
  | zero =>
    intro s hl hb
    simp [execChunksFuel] at hl
  | succ m ih =>
    intro s hl hb
    cases s with
    | nil => simp [execChunksFuel] at hl
    | cons c rest =>
      have hsplit := fgetsTake_append 63 (c :: rest)
      have hl' : l = (fgetsTake 63 (c :: rest)).1 ∨
          l ∈ execChunksFuel m (fgetsTake 63 (c :: rest)).2 :=
        List.mem_cons.mp hl
      rcases hl' with h1 | h2
      · rw [← hsplit]
        exact List.mem_append_left _ (h1 ▸ hb)
      · rw [← hsplit]
        exact List.mem_append_right _ (ih _ h2 hb)

/-- A buffer without a NUL byte is read back whole by the `String(const
char*)` constructor. -/
theorem cstring_eq_self (l : List Nat) (h : 0 ∉ l) : cstring l = l := by
  unfold cstring
  apply List.takeWhile_eq_self_iff.mpr
  intro c hc
  simp only [bne_iff_ne, ne_eq]
  intro h0
  exact h (h0 ▸ hc)

/-- C6 counterexample: on the stdout byte stream `'a', NUL, 'b'` the
`Ret += C` append treats the chunk as a NUL-terminated C string, so `Exec`
returns only `"a"` — not the concatenation of all bytes written. -/
theorem Exec_drops_nul_bytes :
    Exec [97, 0, 98] = [97] ∧ Exec [97, 0, 98] ≠ [97, 0, 98] := by
  constructor <;> decide

/-- C6 (amended): for every command whose standard output contains no NUL
byte, `Exec` returns exactly the bytes written to standard output in read
order, and a command producing no output yields the empty string. -/
theorem Exec_captures_stdout (stdout : List Nat) (h : 0 ∉ stdout) :
    Exec stdout = stdout ∧ Exec [] = [] := by
  refine ⟨?_, rfl⟩
  unfold Exec
  have hmap : (execChunks stdout).map cstring = (execChunks stdout).map id :=
    List.map_congr_left fun l hl =>
      cstring_eq_self l fun h0 =>
        h (execChunksFuel_mem 0 l stdout.length stdout hl h0)
  rw [hmap, List.map_id]
  exact execChunksFuel_flatten stdout.length stdout le_rfl

/-- Witness for C6 at the concrete stream `"hi\n"`. -/
theorem Exec_captures_stdout_witness :
    Exec [104, 105, 10] = [104, 105, 10] :=
  (Exec_captures_stdout [104, 105, 10] (by decide)).1

/-! ## Theorems for claims C1-C5 -/

/-- C1: the claim states `FunctionExists(Name)` returns `true` exactly when
a command named `Name` exists on the search path. The code returns the
`bool` conversion of `system`'s wait status, which is `0` precisely when
`which` succeeds, so the result is the NEGATION of command existence: the
claim fails on every input. -/
theorem FunctionExists_inverted :
    ∀ existsOnPath : Bool, FunctionExists existsOnPath = !existsOnPath := by
  decide

/-- C2: the claim states `TotalRam` returns the exact product of page count
and page size, not reduced mod 2^32. On a machine with 2^22 pages of 2^12
bytes (16 GiB) the code's `U32` arithmetic wraps and returns `0` instead of
the exact product `17179869184`. -/
theorem TotalRam_wraps :
    TotalRam 4194304 4096 = 0 ∧ 4194304 * 4096 = 17179869184 := by
  constructor <;> norm_num [TotalRam]

/-- C3: `CurrentDirectory` returns an absent result exactly when the
`getcwd` read of the working directory fails, and otherwise a present
result carrying the working directory path (paths contain no NUL byte). -/
theorem CurrentDirectory_absence (cwd : Option (List Nat)) :
    (CurrentDirectory cwd = none ↔ getcwdModel cwd 1024 = none) ∧
    (∀ p : List Nat, 0 ∉ p → getcwdModel cwd 1024 = some p →
      CurrentDirectory cwd = some p) := by
  constructor
  · unfold CurrentDirectory
    cases h : getcwdModel cwd 1024 <;> simp
  · intro p hp hg
    unfold CurrentDirectory
    rw [hg]
    have : cstring p = p := by
      unfold cstring
      apply List.takeWhile_eq_self_iff.mpr
      intro c hc
      simp only [bne_iff_ne, ne_eq]
      intro h0
      exact hp (h0 ▸ hc)
    show some (cstring p) = some p
    rw [this]

/-- Witness for C3 at a concrete readable one-byte path. -/
theorem CurrentDirectory_absence_witness :
    CurrentDirectory (some [47]) = some [47] :=
  (CurrentDirectory_absence (some [47])).2 [47] (by decide) (by decide)

/-- C4: `Or` on a present optional returns the stored value; on an absent
optional (`Optional()` or `NullOpt<T>()`) it returns the default. -/
theorem Optional_Or_spec (T : Type) [Inhabited T] (v d : T) :
    (Optional.ofValue v).Or d = v ∧
    (Optional.empty : Optional T).Or d = d ∧
    (NullOpt T).Or d = d := by
  refine ⟨rfl, rfl, rfl⟩

/-- C5: an optional constructed with a value has `Valid() == true` and
converts to `true`; one constructed absent has `Valid() == false` and
converts to `false`; `Valid()` and the bool conversion always agree. -/
theorem Optional_Valid_spec (T : Type) [Inhabited T] (v : T)
    (o : Optional T) :
    (Optional.ofValue v).Valid = true ∧
    (Optional.ofValue v).toBool = true ∧
    (Optional.empty : Optional T).Valid = false ∧
    (Optional.empty : Optional T).toBool = false ∧
    (NullOpt T).Valid = false ∧
    (NullOpt T).toBool = false ∧
    o.Valid = o.toBool := by
  refine ⟨rfl, rfl, rfl, rfl, rfl, rfl, rfl⟩

/-- Witness for C4 at `T = Nat`, value `7`, default `3`. -/
theorem Optional_Or_spec_witness :
    (Optional.ofValue 7).Or 3 = 7 ∧
    (Optional.empty : Optional Nat).Or 3 = 3 ∧
    (NullOpt Nat).Or 3 = 3 :=
  Optional_Or_spec Nat 7 3

/-- Witness for C5 at `T = Nat` with a present optional holding `7`. -/
theorem Optional_Valid_spec_witness :
    (Optional.ofValue 7).Valid = true ∧
    (Optional.ofValue 7).toBool = true ∧
    (Optional.empty : Optional Nat).Valid = false ∧
    (Optional.empty : Optional Nat).toBool = false ∧
    (NullOpt Nat).Valid = false ∧
    (NullOpt Nat).toBool = false ∧
    (Optional.ofValue 7).Valid = (Optional.ofValue 7).toBool :=
  Optional_Valid_spec Nat 7 (Optional.ofValue 7)

/-- C10: whenever the working directory's path plus its NUL terminator does
not fit in the fixed 1024-byte buffer, `CurrentDirectory` returns an absent
result even though a readable working directory exists. -/
theorem CurrentDirectory_truncation (p : List Nat)
    (h : 1024 < p.length + 1) :
    CurrentDirectory (some p) = none := by
  have h' : ¬(p.length + 1 ≤ 1024) := by omega
  simp [CurrentDirectory, getcwdModel, h']

/-- Witness for C10 at a concrete readable 1024-byte path. -/
theorem CurrentDirectory_truncation_witness :
    CurrentDirectory (some (List.replicate 1024 97)) = none :=
  CurrentDirectory_truncation (List.replicate 1024 97)
    (by rw [List.length_replicate]; omega)

/-! ## Lemmas about the numeric lexer/formatter -/

open Utils

/-- The digit-extraction loop computes the base-ten digits (ASCII-offset,
least-significant first) whenever the fuel covers the value. -/
theorem natToDecAux_eq_digits (fuel : Nat) :
    ∀ n : Nat, n ≤ fuel →
      natToDecAux fuel n = (Nat.digits 10 n).map (fun d => d + 48) := by
  induction fuel with
  | zero =>
    intro n hn
    have : n = 0 := Nat.le_zero.mp hn
    simp [this, natToDecAux]
  | succ m ih =>
    intro n hn
    cases n with
    | zero => simp [natToDecAux]
    | succ k =>
      rw [natToDecAux]
      rw [Nat.digits_def' (by norm_num : (1 : Nat) < 10) (Nat.succ_pos k)]
      rw [List.map_cons]
      have hdiv : (k + 1) / 10 ≤ m := by
        have := Nat.div_lt_self (Nat.succ_pos k) (by norm_num : 1 < 10)
        omega
      rw [ih _ hdiv]

/-- Horner evaluation: folding the digit-accumulation step over a reversed
digit list recovers the positional value of the digits. -/
theorem foldl_reverse_ofDigits (L : List Nat) :
    ∀ acc : Nat,
      L.reverse.foldl (fun a d => a * 10 + d) acc =
        acc * 10 ^ L.length + Nat.ofDigits 10 L := by
  induction L with
  | nil => intro acc; simp
  | cons d t ih =>
    intro acc
    rw [List.reverse_cons, List.foldl_append]
    simp only [List.foldl_cons, List.foldl_nil]
    rw [ih acc, Nat.ofDigits_cons, List.length_cons, pow_succ]
    ring

/-- The digit-run scanner accepts a list of ASCII-offset digits and folds
up their value. -/
theorem parseDigitsAux_map (L : List Nat) :
    ∀ acc : Nat, (∀ d ∈ L, d < 10) →
      parseDigitsAux (L.map (fun d => d + 48)) acc =
        some (L.foldl (fun a d => a * 10 + d) acc) := by
  induction L with
  | nil => intro acc _; rfl
  | cons d t ih =>
    intro acc h
    have hd : d < 10 := h d (List.mem_cons_self d t)
    have hdig : isDigit (d + 48) = true := by
      simp only [isDigit, decide_eq_true_eq]
      omega
    rw [List.map_cons, parseDigitsAux, if_pos hdig]
    have h48 : d + 48 - 48 = d := by omega
    rw [h48, ih _ fun x hx => h x (List.mem_cons_of_mem d hx)]
    rfl

/-- Parsing the rendered decimal digits of `n` back recovers `n`. -/
theorem parseDigitsAux_natToDec (n : Nat) :
    parseDigitsAux (natToDec n) 0 = some n := by
  unfold natToDec
  rw [natToDecAux_eq_digits n n le_rfl]
  have hb : ∀ d ∈ (Nat.digits 10 n).reverse, d < 10 := by
    intro d hd
    exact Nat.digits_lt_base (by norm_num) (List.mem_reverse.mp hd)
  rw [← List.map_reverse, parseDigitsAux_map _ 0 hb,
    foldl_reverse_ofDigits _ 0]
  simp [Nat.ofDigits_digits]

/-- Every byte of the rendered decimal magnitude is an ASCII digit. -/
theorem natToDec_mem (n : Nat) (x : Nat) (hx : x ∈ natToDec n) :
    48 ≤ x ∧ x ≤ 57 := by
  unfold natToDec at hx
  rw [natToDecAux_eq_digits n n le_rfl, ← List.map_reverse] at hx
  obtain ⟨d, hd, rfl⟩ := List.mem_map.mp hx
  have : d < 10 := Nat.digits_lt_base (by norm_num) (List.mem_reverse.mp hd)
  omega

/-- The rendered decimal magnitude of a nonzero value is nonempty. -/
theorem natToDec_ne_nil (n : Nat) (hn : n ≠ 0) : natToDec n ≠ [] := by
  unfold natToDec
  rw [natToDecAux_eq_digits n n le_rfl, ← List.map_reverse]
  simp [Nat.digits_ne_nil_iff_ne_zero.mpr hn]

/-- `ParseInt` recovers a nonzero magnitude from its decimal rendering. -/
theorem ParseInt_natToDec (n : Nat) (hn : n ≠ 0) :
    ParseInt (natToDec n) = some (n : Int) := by
  obtain ⟨c, rest, hcr⟩ := List.exists_cons_of_ne_nil (natToDec_ne_nil n hn)
  have hc := natToDec_mem n c (hcr ▸ List.mem_cons_self c rest)
  rw [hcr, ParseInt, if_neg (by omega), if_neg (by omega), ← hcr,
    parseDigitsAux_natToDec n]
  rfl

/-! ## Theorems for claims C7-C9 -/

/-- C7: for every integer in the representable range of `I64`, parsing the
decimal rendering `ToString(n)` with `ParseInt` yields that integer back,
present. -/
theorem ParseInt_ToString_roundtrip (n : Int)
    (h1 : -(2 ^ 63) ≤ n) (h2 : n < 2 ^ 63) :
    ParseInt (ToString n) = some n := by
  rcases lt_trichotomy n 0 with hneg | hzero | hpos
  · rw [Utils.ToString, if_pos hneg]
    have hrest : natToDec n.natAbs ≠ [] :=
      natToDec_ne_nil n.natAbs (by omega)
    rw [ParseInt, if_pos rfl, if_neg hrest, parseDigitsAux_natToDec]
    show some (-((n.natAbs : Nat) : Int)) = some n
    have : -((n.natAbs : Nat) : Int) = n := by omega
    rw [this]
  · rw [hzero]
    decide
  · rw [Utils.ToString, if_neg (by omega), if_neg (by omega)]
    rw [ParseInt_natToDec n.natAbs (by omega)]
    have : ((n.natAbs : Nat) : Int) = n := by omega
    rw [this]

/-- Witness for C7 at the concrete value `-42`. -/
theorem ParseInt_ToString_roundtrip_witness :
    ParseInt (ToString (-42)) = some (-42) :=
  ParseInt_ToString_roundtrip (-42) (by norm_num) (by norm_num)

/-! ## Grammar alphabets of the parse functions (spec section 4.6) -/

/-- The byte alphabet of the decimal-integer grammar: digits and the two
sign characters. -/
def intAlphabet (c : Nat) : Bool :=
  isDigit c || decide (c = 45) || decide (c = 43)

/-- The byte alphabet of the bit-pattern grammar. -/
def bitsAlphabet (c : Nat) : Bool :=
  decide (c = 48) || decide (c = 49)

/-- The byte alphabet of the decimal-point float grammar: digits, signs
and the decimal point. -/
def floatAlphabet (c : Nat) : Bool :=
  isDigit c || decide (c = 45) || decide (c = 43) || decide (c = 46)

/-- The byte alphabet of the boolean grammar: the bytes of the literal
tokens for true and false. -/
def boolAlphabet (c : Nat) : Bool :=
  decide (c ∈ [116, 114, 117, 101, 102, 97, 108, 115])

/-- A non-digit byte anywhere in the remaining input aborts the digit-run
scanner. -/
theorem parseDigitsAux_none (c : Nat) (hdig : isDigit c = false) :
    ∀ (l : List Nat) (acc : Nat), c ∈ l → parseDigitsAux l acc = none := by
  intro l
  induction l with
  | nil => intro acc hc; exact absurd hc (List.not_mem_nil c)
  | cons a t ih =>
    intro acc hc
    rw [parseDigitsAux]
    by_cases ha : isDigit a = true
    · rw [if_pos ha]
      have hca : c ≠ a := fun h => by rw [h, ha] at hdig; cases hdig
      exact ih _ ((List.mem_cons.mp hc).resolve_left hca)
    · rw [if_neg ha]

/-- A byte outside the binary-digit set anywhere in the remaining input
aborts the bit scanner. -/
theorem parseBitsAux_none (c : Nat) (hbit : ¬(c = 48 ∨ c = 49)) :
    ∀ (l : List Nat) (acc : Nat), c ∈ l → parseBitsAux l acc = none := by
  intro l
  induction l with
  | nil => intro acc hc; exact absurd hc (List.not_mem_nil c)
  | cons a t ih =>
    intro acc hc
    rw [parseBitsAux]
    by_cases ha : a = 48 ∨ a = 49
    · rw [if_pos ha]
      have hca : c ≠ a := fun h => hbit (h ▸ ha)
      exact ih _ ((List.mem_cons.mp hc).resolve_left hca)
    · rw [if_neg ha]

/-- A byte outside the hexadecimal digit set anywhere in the remaining
input aborts the hex scanner. -/
theorem parseHexAux_none (c : Nat) (hhex : isHexDigit c = false) :
    ∀ (l : List Nat) (acc : Nat), c ∈ l → parseHexAux l acc = none := by
  intro l
  induction l with
  | nil => intro acc hc; exact absurd hc (List.not_mem_nil c)
  | cons a t ih =>
    intro acc hc
    rw [parseHexAux]
    by_cases ha : isHexDigit a = true
    · rw [if_pos ha]
      have hca : c ≠ a := fun h => by rw [h, ha] at hhex; cases hhex
      exact ih _ ((List.mem_cons.mp hc).resolve_left hca)
    · rw [if_neg ha]

/-- A non-digit byte anywhere in the remaining input aborts the
fraction-digit scanner. -/
theorem parseFracAux_none (c : Nat) (hdig : isDigit c = false) :
    ∀ l : List Nat, c ∈ l → parseFracAux l = none := by
  intro l
  induction l with
  | nil => intro hc; exact absurd hc (List.not_mem_nil c)
  | cons a t ih =>
    intro hc
    rw [parseFracAux]
    by_cases ha : isDigit a = true
    · rw [if_pos ha]
      have hca : c ≠ a := fun h => by rw [h, ha] at hdig; cases hdig
      rw [ih ((List.mem_cons.mp hc).resolve_left hca)]
      rfl
    · rw [if_neg ha]

/-- A byte that is neither a digit nor the decimal point anywhere in the
remaining input aborts the float body scanner. -/
theorem parseFloatAux_none (c : Nat) (hdig : isDigit c = false)
    (hdot : c ≠ 46) :
    ∀ (l : List Nat) (acc : Nat), c ∈ l → parseFloatAux l acc = none := by
  intro l
  induction l with
  | nil => intro acc hc; exact absurd hc (List.not_mem_nil c)
  | cons a t ih =>
    intro acc hc
    rw [parseFloatAux]
    by_cases ha : isDigit a = true
    · rw [if_pos ha]
      have hca : c ≠ a := fun h => by rw [h, ha] at hdig; cases hdig
      exact ih _ ((List.mem_cons.mp hc).resolve_left hca)
    · rw [if_neg ha]
      by_cases ha46 : a = 46
      · rw [if_pos ha46]
        by_cases ht : t = []
        · rw [if_pos ht]
        · rw [if_neg ht]
          have hca : c ≠ a := fun h => hdot (h.trans ha46)
          rw [parseFracAux_none c hdig t
            ((List.mem_cons.mp hc).resolve_left hca)]
          rfl
      · rw [if_neg ha46]

/-- A byte outside the integer alphabet anywhere in the input makes
`ParseInt` absent. -/
theorem ParseInt_outside (cs : List Nat) (c : Nat) (hc : c ∈ cs)
    (ha : intAlphabet c = false) : ParseInt cs = none := by
  have hsplit : isDigit c = false ∧ c ≠ 45 ∧ c ≠ 43 := by
    simp only [intAlphabet, Bool.or_eq_false_iff, decide_eq_false_iff_not]
      at ha
    exact ⟨ha.1.1, ha.1.2, ha.2⟩
  obtain ⟨hdig, h45, h43⟩ := hsplit
  cases cs with
  | nil => exact absurd hc (List.not_mem_nil c)
  | cons a rest =>
    rw [ParseInt]
    by_cases ha45 : a = 45
    · rw [if_pos ha45]
      have hcr : c ∈ rest :=
        (List.mem_cons.mp hc).resolve_left fun h => h45 (h.trans ha45)
      rw [if_neg (List.ne_nil_of_mem hcr),
        parseDigitsAux_none c hdig rest 0 hcr]
      rfl
    · rw [if_neg ha45]
      by_cases ha43 : a = 43
      · rw [if_pos ha43]
        have hcr : c ∈ rest :=
          (List.mem_cons.mp hc).resolve_left fun h => h43 (h.trans ha43)
        rw [if_neg (List.ne_nil_of_mem hcr),
          parseDigitsAux_none c hdig rest 0 hcr]
        rfl
      · rw [if_neg ha43, parseDigitsAux_none c hdig (a :: rest) 0 hc]
        rfl

/-- A byte outside the binary alphabet anywhere in the input makes
`ParseBits` absent. -/
theorem ParseBits_outside (cs : List Nat) (c : Nat) (hc : c ∈ cs)
    (ha : bitsAlphabet c = false) : ParseBits cs = none := by
  have hbit : ¬(c = 48 ∨ c = 49) := by
    simp only [bitsAlphabet, Bool.or_eq_false_iff, decide_eq_false_iff_not]
      at ha
    tauto
  rw [ParseBits, if_neg (List.ne_nil_of_mem hc),
    parseBitsAux_none c hbit cs 0 hc]
  rfl

/-- A byte outside the hexadecimal digit set anywhere in the input makes
`ParseHex` absent. -/
theorem ParseHex_outside (cs : List Nat) (c : Nat) (hc : c ∈ cs)
    (ha : isHexDigit c = false) : ParseHex cs = none := by
  rw [ParseHex, if_neg (List.ne_nil_of_mem hc),
    parseHexAux_none c ha cs 0 hc]
  rfl

/-- A byte outside the float alphabet anywhere in the input makes
`ParseFloat` absent. -/
theorem ParseFloat_outside (cs : List Nat) (c : Nat) (hc : c ∈ cs)
    (ha : floatAlphabet c = false) : ParseFloat cs = none := by
  have hsplit : isDigit c = false ∧ c ≠ 45 ∧ c ≠ 43 ∧ c ≠ 46 := by
    simp only [floatAlphabet, Bool.or_eq_false_iff,
      decide_eq_false_iff_not] at ha
    exact ⟨ha.1.1.1, ha.1.1.2, ha.1.2, ha.2⟩
  obtain ⟨hdig, h45, h43, h46⟩ := hsplit
  cases cs with
  | nil => exact absurd hc (List.not_mem_nil c)
  | cons a rest =>
    rw [ParseFloat]
    by_cases ha45 : a = 45
    · rw [if_pos ha45]
      have hcr : c ∈ rest :=
        (List.mem_cons.mp hc).resolve_left fun h => h45 (h.trans ha45)
      rw [if_neg (List.ne_nil_of_mem hcr),
        parseFloatAux_none c hdig h46 rest 0 hcr]
      rfl
    · rw [if_neg ha45]
      by_cases ha43 : a = 43
      · rw [if_pos ha43]
        have hcr : c ∈ rest :=
          (List.mem_cons.mp hc).resolve_left fun h => h43 (h.trans ha43)
        rw [if_neg (List.ne_nil_of_mem hcr),
          parseFloatAux_none c hdig h46 rest 0 hcr]
      · rw [if_neg ha43, parseFloatAux_none c hdig h46 (a :: rest) 0 hc]

/-- A byte outside the boolean token alphabet anywhere in the input makes
`ParseBool` absent. -/
theorem ParseBool_outside (cs : List Nat) (c : Nat) (hc : c ∈ cs)
    (ha : boolAlphabet c = false) : ParseBool cs = none := by
  rw [ParseBool]
  by_cases h1 : cs = [116, 114, 117, 101]
  · subst h1
    simp only [List.mem_cons, List.not_mem_nil, or_false] at hc
    rcases hc with rfl | rfl | rfl | rfl <;> simp [boolAlphabet] at ha
  · rw [if_neg h1]
    by_cases h2 : cs = [102, 97, 108, 115, 101]
    · subst h2
      simp only [List.mem_cons, List.not_mem_nil, or_false] at hc
      rcases hc with rfl | rfl | rfl | rfl | rfl <;>
        simp [boolAlphabet] at ha
    · rw [if_neg h2]

/-- C8 counterexample: the input `"12a"` consists entirely of hexadecimal
digits, so `ParseHex` returns it present (with value `0x12a = 298`) rather
than absent as the claim requires of every parse function. -/
theorem ParseHex_12a_present :
    ParseHex [49, 50, 97] = some 298 ∧ ParseHex [49, 50, 97] ≠ none := by
  constructor <;> decide

/-- C8 (amended): every parse function returns absent whenever the input
contains, at any position, a byte outside that function's grammar
alphabet, and on empty input; `""` and `"--3"` yield absent from all five
parse functions, and `"12a"` yields absent from `ParseInt`, `ParseBits`,
`ParseFloat` and `ParseBool` — but not from `ParseHex`, whose grammar
accepts it. -/
theorem Parse_grammar_absence :
    (∀ (cs : List Nat) (c : Nat), c ∈ cs → intAlphabet c = false →
      ParseInt cs = none) ∧
    (∀ (cs : List Nat) (c : Nat), c ∈ cs → bitsAlphabet c = false →
      ParseBits cs = none) ∧
    (∀ (cs : List Nat) (c : Nat), c ∈ cs → isHexDigit c = false →
      ParseHex cs = none) ∧
    (∀ (cs : List Nat) (c : Nat), c ∈ cs → floatAlphabet c = false →
      ParseFloat cs = none) ∧
    (∀ (cs : List Nat) (c : Nat), c ∈ cs → boolAlphabet c = false →
      ParseBool cs = none) ∧
    (ParseInt [] = none ∧ ParseBits [] = none ∧ ParseHex [] = none ∧
      ParseFloat [] = none ∧ ParseBool [] = none) ∧
    (ParseInt [49, 50, 97] = none ∧ ParseBits [49, 50, 97] = none ∧
      ParseFloat [49, 50, 97] = none ∧ ParseBool [49, 50, 97] = none) ∧
    (ParseInt [45, 45, 51] = none ∧ ParseBits [45, 45, 51] = none ∧
      ParseHex [45, 45, 51] = none ∧ ParseFloat [45, 45, 51] = none ∧
      ParseBool [45, 45, 51] = none) := by
  refine ⟨ParseInt_outside, ParseBits_outside, ParseHex_outside,
    ParseFloat_outside, ParseBool_outside,
    ⟨rfl, rfl, rfl, rfl, rfl⟩, ⟨?_, ?_, ?_, ?_⟩, ⟨?_, ?_, ?_, ?_, ?_⟩⟩
    <;> decide

/-- Witness for C8 applying the general absence part at the concrete
input `" "` (a space, outside the integer grammar). -/
theorem Parse_grammar_absence_witness : ParseInt [32] = none :=
  Parse_grammar_absence.1 [32] 32 (by decide) (by decide)

/-- C9: string concatenation is associative — `(a + b) + c` and
`a + (b + c)` are the same String, hence byte-for-byte equal buffers —
and length-homomorphic: `Len(a + b) = Len(a) + Len(b)`. -/
theorem String_append_spec (a b c : String) :
    (a.append b).append c = a.append (b.append c) ∧
    ((a.append b).append c).buffer = (a.append (b.append c)).buffer ∧
    (a.append b).Len = a.Len + b.Len := by
  refine ⟨?_, ?_, ?_⟩
  · show String.mk ((a.content ++ b.content) ++ c.content) =
      String.mk (a.content ++ (b.content ++ c.content))
    rw [List.append_assoc]
  · simp [String.buffer, String.append, List.append_assoc]
  · show (a.content ++ b.content).length = a.content.length +
      b.content.length
    exact List.length_append a.content b.content

/-- Witness for C9 at the concrete strings `"h"`, `"i"`, `"!"`. -/
theorem String_append_spec_witness :
    ((String.mk [104]).append (String.mk [105])).append (String.mk [33]) =
      (String.mk [104]).append ((String.mk [105]).append (String.mk [33])) ∧
    (((String.mk [104]).append (String.mk [105])).append
      (String.mk [33])).buffer =
      ((String.mk [104]).append ((String.mk [105]).append
        (String.mk [33]))).buffer ∧
    ((String.mk [104]).append (String.mk [105])).Len =
      (String.mk [104]).Len + (String.mk [105]).Len :=
  String_append_spec (String.mk [104]) (String.mk [105]) (String.mk [33])

end Cthulhu
